import Mathlib

/-!
Verification development for the football-chat-platform repository.

The repository under verification ships the React frontend (the chat
client in `CommunityRoom.jsx`, the REST layer in `services/api.js`) and
design documents; the real-time messaging core (Session Registry,
Membership Gate, Message Log, Room Broadcaster, Connection Lifecycle
Manager) is specified but its server implementation is not in the source
tree.  The server-side components are therefore modelled from the spec,
while the client-side behaviour (message rendering order, the 401
response interceptor) is embedded directly from the frontend source.
-/

namespace FootballChat

/-- Pointwise update of a total map, used for per-connection and per-room
state. -/
def upd {α : Type} (f : Nat → α) (k : Nat) (v : α) : Nat → α :=
  fun x => if x = k then v else f x

/-- JavaScript-style trim: remove leading and trailing whitespace
(`message.trim()` in `CommunityRoom.jsx` and `App.jsx`). -/
def strTrim (s : String) : String :=
  ⟨((s.data.dropWhile Char.isWhitespace).reverse.dropWhile Char.isWhitespace).reverse⟩

/-- A body is blank when nothing remains after trimming
(`if (!inputMessage.trim()) …` in the client; `empty_body` in the spec). -/
def isBlank (s : String) : Bool :=
  (strTrim s).data.isEmpty

/-- User identity resolved by the external token validator: id plus
display name (spec §3, "User Identity"). -/
structure User where
  id : Nat
  displayName : String
deriving DecidableEq, Repr

/-- A chat message: room id, sender user id, sender display name, body
text, and the server-assigned per-room sequence number (spec §3,
"Message"). -/
structure Msg where
  roomId : Nat
  userId : Nat
  displayName : String
  body : String
  sequence : Nat
deriving DecidableEq, Repr

/-- Reason codes for client-facing failures (spec §4.2, §4.3, §4.5). -/
inductive Reason where
  | invalid_token
  | unauthenticated
  | room_not_found
  | not_a_member
  | empty_body
  | not_in_room
deriving DecidableEq, Repr

/-- The operation an error event is scoped to (spec §7: "scoped `error`
events carrying an operation name"). -/
inductive Scope where
  | auth
  | join
  | send
deriving DecidableEq, Repr

/-- Outbound events emitted by the core to one connection (spec §6):
`status`, `message_received`, and scoped `error`. -/
inductive OutEvent where
  | status (text : String)
  | message (m : Msg)
  | error (scope : Scope) (reason : Reason)
deriving DecidableEq, Repr

/-- Modelled from the spec: the Message Log state (§4.3) — the per-room
append-only list of messages together with the per-room next sequence
number; the server implementation of the Message Log is not in the
source tree. -/
structure LogState where
  logs : Nat → List Msg
  seqOf : Nat → Nat

/-- The empty Message Log. -/
def initLog : LogState := ⟨fun _ => [], fun _ => 0⟩

/-- Modelled from the spec: `append(roomId, userId, displayName, body) ->
Message`, failing with `empty_body` if the body is blank after trimming
(§4.3); the stored body is the trimmed text and the sequence number is
the room's next counter value. -/
def LogState.append (st : LogState) (roomId userId : Nat)
    (displayName body : String) : Except Reason (LogState × Msg) :=
  if isBlank body then .error .empty_body
  else
    let m : Msg := ⟨roomId, userId, displayName, strTrim body, st.seqOf roomId⟩
    .ok (⟨upd st.logs roomId (st.logs roomId ++ [m]),
          upd st.seqOf roomId (st.seqOf roomId + 1)⟩, m)

/-- A rejected append leaves the caller's state unchanged (validation
errors are "rejected without side effects", spec §7). -/
def LogState.appendOrKeep (st : LogState) (roomId userId : Nat)
    (displayName body : String) : LogState :=
  match st.append roomId userId displayName body with
  | .ok (st', _) => st'
  | .error _ => st

/-- Modelled from the spec: `history(roomId, limit, offset)` — the
reverse-chronological (most-recent-first) page of the room's log (§4.3). -/
def LogState.history (st : LogState) (roomId limit offset : Nat) : List Msg :=
  ((st.logs roomId).reverse.drop offset).take limit

/-- `history` as a state-passing read: it returns the page and leaves the
log state untouched (a pure read, spec §4.3). -/
def LogState.historyOp (st : LogState) (roomId limit offset : Nat) :
    LogState × List Msg :=
  (st, st.history roomId limit offset)

/-- A Message Log extended by a list of append requests
(roomId, userId, displayName, body), rejected appends dropped. -/
def buildLogFrom (st : LogState) (entries : List (Nat × Nat × String × String)) :
    LogState :=
  entries.foldl (fun st e => st.appendOrKeep e.1 e.2.1 e.2.2.1 e.2.2.2) st

/-- A Message Log built from a list of append requests starting from the
empty log. -/
def buildLog (entries : List (Nat × Nat × String × String)) : LogState :=
  buildLogFrom initLog entries

/-- Modelled from the spec: the per-connection state held by the Session
Registry and the Connection Lifecycle Manager (§3, §4.1, §4.5) —
authenticated identity (none until auth completes), the at-most-one room
currently joined, whether the connection is closed, and the ordered list
of events delivered to it. -/
structure Conn where
  user : Option User
  room : Option Nat
  closed : Bool
  outbox : List OutEvent
deriving Repr

/-- A fresh connection: unauthenticated, in no room, live, nothing
delivered. -/
def initConn : Conn := ⟨none, none, false, []⟩

/-- Modelled from the spec: the external collaborators (§1, §6) — the
token validator, the room-existence check, and the membership
authority. -/
structure Env where
  resolve : String → Option User
  roomExists : Nat → Bool
  isMember : Nat → Nat → Bool

/-- Modelled from the spec: the whole core's state — the Session
Registry's connection map plus the Message Log. -/
structure CoreState where
  conns : Nat → Conn
  log : LogState

/-- The initial core state: every connection id fresh, the log empty. -/
def initCore : CoreState := ⟨fun _ => initConn, initLog⟩

/-- Modelled from the spec: the Room Membership Gate (§4.2) —
`authorize(userIdentity, roomId)`; `none` means allowed, `some reason`
the denial reason (`unauthenticated` before auth completes,
`room_not_found`, `not_a_member`). -/
def authorize (env : Env) (u : Option User) (r : Nat) : Option Reason :=
  match u with
  | none => some .unauthenticated
  | some user =>
    if env.roomExists r = false then some .room_not_found
    else if env.isMember user.id r = false then some .not_a_member
    else none

/-- Append one outbound event to a connection's delivery list. -/
def emit (s : CoreState) (c : Nat) (ev : OutEvent) : CoreState :=
  let k := s.conns c
  { s with conns := upd s.conns c ({ k with outbox := k.outbox ++ [ev] }) }

/-- Modelled from the spec: the Room Broadcaster's fan-out (§4.4) —
deliver `m` to every connection currently in the room (including the
sender, for ordering consistency). -/
def deliver (conns : Nat → Conn) (r : Nat) (m : Msg) : Nat → Conn :=
  fun x =>
    if (conns x).room = some r then
      { conns x with outbox := (conns x).outbox ++ [.message m] }
    else conns x

/-- The status text emitted on a successful join (spec §6,
`status("joined room X")`). -/
def joinedText (r : Nat) : String := "joined room " ++ toString r

/-- Inbound events accepted by the core (spec §6), plus the
transport-level disconnect that triggers `unregister`. -/
inductive Op where
  | authenticate (c : Nat) (cred : String)
  | join_room (c : Nat) (r : Nat)
  | leave_room (c : Nat) (r : Nat)
  | send_message (c : Nat) (body : String)
  | disconnect (c : Nat)

/-- Modelled from the spec: one step of the Connection Lifecycle Manager
(§4.5) — authenticate, join (gated by `authorize`), leave, send
(append-then-publish, §4.3/§4.4), and disconnect (`unregister`).
Operations on a closed connection are no-ops (§4.1: defensive against
duplicate disconnects). -/
def step (env : Env) (s : CoreState) (op : Op) : CoreState :=
  match op with
  | .authenticate c cred =>
    if (s.conns c).closed then s
    else match (s.conns c).user with
      | some _ => s
      | none =>
        match env.resolve cred with
        | some u =>
          { s with conns := upd s.conns c { s.conns c with user := some u } }
        | none => emit s c (.error .auth .invalid_token)
  | .join_room c r =>
    if (s.conns c).closed then s
    else match authorize env (s.conns c).user r with
      | some reason => emit s c (.error .join reason)
      | none =>
        emit { s with conns := upd s.conns c { s.conns c with room := some r } }
          c (.status (joinedText r))
  | .leave_room c r =>
    if (s.conns c).closed then s
    else if (s.conns c).room = some r then
      { s with conns := upd s.conns c { s.conns c with room := none } }
    else s
  | .send_message c body =>
    if (s.conns c).closed then s
    else match (s.conns c).user, (s.conns c).room with
      | some u, some r =>
        match s.log.append r u.id u.displayName body with
        | .error reason => emit s c (.error .send reason)
        | .ok (log', m) => { conns := deliver s.conns r m, log := log' }
      | _, _ => emit s c (.error .send .not_in_room)
  | .disconnect c =>
    if (s.conns c).closed then s
    else
      let k := s.conns c
      { s with conns := upd s.conns c ({ k with room := none, closed := true }) }

/-- Run a list of inbound operations from a state. -/
def run (env : Env) (s : CoreState) (ops : List Op) : CoreState :=
  ops.foldl (step env) s

/-- The message payload of an outbound event, if it is one. -/
def msgOf : OutEvent → Option Msg
  | .message m => some m
  | _ => none

/-- The messages delivered to a connection, in delivery order. -/
def inboxOf (s : CoreState) (c : Nat) : List Msg :=
  ((s.conns c).outbox).filterMap msgOf

/-- `membersOf(roomId)` as a per-connection test (spec §4.1): is `c`
currently joined to room `r`? -/
def memberOf (s : CoreState) (r c : Nat) : Bool :=
  (s.conns c).room == some r

/-- One chat message as the client receives it over the socket
(the `receive_message` payload rendered by `CommunityRoom.jsx`). -/
structure ClientMsg where
  user_id : Nat
  username : String
  content : String
  created_at : Nat
deriving DecidableEq, Repr

/-- The `receive_message` handler in `CommunityRoom.jsx`:
`setMessages((prev) => [...prev, data])` — the arriving payload is
appended to the end of the list, nothing is re-sorted. -/
def receive_message (msgs : List ClientMsg) (data : ClientMsg) : List ClientMsg :=
  msgs ++ [data]

/-- The client's message list after a sequence of `receive_message`
events, in network arrival order. -/
def clientMessages (arrivals : List ClientMsg) : List ClientMsg :=
  arrivals.foldl receive_message []

/-- The messages render in `CommunityRoom.jsx`:
`messages.map((msg, idx) => …)` draws one row per message in array
order, showing `msg.username` and `msg.content`; no sort is applied. -/
def renderRows (msgs : List ClientMsg) : List (String × String) :=
  msgs.map fun m => (m.username, m.content)

/-- The credential entries the client keeps in `localStorage`
(`access_token`, `refresh_token`, `user`); `none` models a removed key. -/
structure Storage where
  access_token : Option String
  refresh_token : Option String
  user : Option String
deriving DecidableEq, Repr

/-- The response interceptor's error branch in `services/api.js`: when
the failed response carries HTTP status 401 it removes `access_token`,
`refresh_token` and `user` from `localStorage` and sets
`window.location.href` to `/login`; on any other failure it leaves
storage untouched and performs no redirect (the returned `Option String`
is the redirect target, if any). -/
def responseErrorInterceptor (status : Option Nat) (st : Storage) :
    Storage × Option String :=
  if status = some 401 then (⟨none, none, none⟩, some "/login")
  else (st, none)

/-- Fixture: an environment whose token validator accepts every
credential as user 1 "ann" and whose membership authority admits
everyone to every room. -/
def envA : Env := ⟨fun _ => some ⟨1, "ann"⟩, fun _ => true, fun _ _ => true⟩

/-- Fixture: like `envA` but the membership authority denies everyone. -/
def envB : Env := ⟨fun _ => some ⟨1, "ann"⟩, fun _ => true, fun _ _ => false⟩

/-- Fixture: connection 0 authenticates, joins room 5 and sends two
messages. -/
def wopsA : List Op :=
  [.authenticate 0 "t", .join_room 0 5, .send_message 0 " one ", .send_message 0 "two"]

/-- Fixture: the first message produced by `wopsA`. -/
def m1A : Msg := ⟨5, 1, "ann", "one", 0⟩

/-- Fixture: the second message produced by `wopsA`. -/
def m2A : Msg := ⟨5, 1, "ann", "two", 1⟩

/-- Fixture: three appends to room 1 by three users. -/
def entriesA : List (Nat × Nat × String × String) :=
  [(1, 10, "a", "m1"), (1, 11, "b", "m2"), (1, 12, "c", "m3")]

theorem upd_same {α : Type} (f : Nat → α) (k : Nat) (v : α) : upd f k v k = v := by
  simp [upd]

theorem upd_other {α : Type} (f : Nat → α) (k : Nat) (v : α) {x : Nat} (h : x ≠ k) :
    upd f k v x = f x := by
  simp [upd, h]

theorem emit_conns_self (s : CoreState) (c : Nat) (ev : OutEvent) :
    (emit s c ev).conns c =
      { s.conns c with outbox := (s.conns c).outbox ++ [ev] } := by
  simp [emit, upd_same]

theorem emit_conns_other (s : CoreState) (c : Nat) (ev : OutEvent) {x : Nat}
    (h : x ≠ c) : (emit s c ev).conns x = s.conns x := by
  simp [emit, upd_other _ _ _ h]

theorem emit_log (s : CoreState) (c : Nat) (ev : OutEvent) :
    (emit s c ev).log = s.log := rfl

theorem filterMap_msgOf_single (ev : OutEvent) :
    List.filterMap msgOf [ev] = (msgOf ev).toList := by
  cases ev <;> simp [msgOf]

theorem filterMap_msgOf_snoc (l : List OutEvent) (ev : OutEvent) :
    (l ++ [ev]).filterMap msgOf = l.filterMap msgOf ++ (msgOf ev).toList := by
  rw [List.filterMap_append, filterMap_msgOf_single]

theorem inbox_emit (s : CoreState) (c : Nat) (ev : OutEvent) (x : Nat) :
    inboxOf (emit s c ev) x =
      if x = c then inboxOf s x ++ (msgOf ev).toList else inboxOf s x := by
  by_cases hx : x = c
  · subst hx
    simp [inboxOf, emit_conns_self, List.filterMap_append, filterMap_msgOf_single]
  · simp [inboxOf, emit_conns_other s c ev hx, hx]

/-- The state invariant of the modelled core, preserved by every step:
closed connections occupy no room; a connection in a room was approved by
the Membership Gate; per-room logs carry that room's messages with
strictly increasing sequence numbers below the room counter; and each
connection's delivered messages are sequence-sorted within each room. -/
structure Inv (env : Env) (s : CoreState) : Prop where
  closed_room : ∀ c, (s.conns c).closed = true → (s.conns c).room = none
  room_auth : ∀ c r, (s.conns c).room = some r →
    authorize env (s.conns c).user r = none
  log_room : ∀ r m, m ∈ s.log.logs r → m.roomId = r
  log_lt : ∀ r m, m ∈ s.log.logs r → m.sequence < s.log.seqOf r
  log_sorted : ∀ r, (s.log.logs r).Pairwise (fun a b => a.sequence < b.sequence)
  inbox_lt : ∀ c m, m ∈ inboxOf s c → m.sequence < s.log.seqOf m.roomId
  inbox_sorted : ∀ c, (inboxOf s c).Pairwise
    (fun a b => a.roomId = b.roomId → a.sequence < b.sequence)

theorem inv_init (env : Env) : Inv env initCore := by
  refine ⟨?_, ?_, ?_, ?_, ?_, ?_, ?_⟩ <;>
    simp [initCore, initConn, initLog, inboxOf]

theorem inv_emit {env : Env} {s : CoreState} (hs : Inv env s) (c : Nat)
    {ev : OutEvent} (hev : msgOf ev = none) : Inv env (emit s c ev) := by
  have hconn : ∀ x, ((emit s c ev).conns x).room = (s.conns x).room ∧
      ((emit s c ev).conns x).user = (s.conns x).user ∧
      ((emit s c ev).conns x).closed = (s.conns x).closed := by
    intro x
    by_cases hx : x = c
    · subst hx; simp [emit_conns_self]
    · simp [emit_conns_other s c ev hx]
  have hinbox : ∀ x, inboxOf (emit s c ev) x = inboxOf s x := by
    intro x
    rw [inbox_emit, hev]
    simp
  refine ⟨?_, ?_, ?_, ?_, ?_, ?_, ?_⟩
  · intro x hcl
    rw [(hconn x).1]
    exact hs.closed_room x (((hconn x).2.2).symm.trans hcl)
  · intro x r hr
    rw [(hconn x).2.1]
    exact hs.room_auth x r (((hconn x).1).symm.trans hr)
  · exact hs.log_room
  · exact hs.log_lt
  · exact hs.log_sorted
  · intro x m hm
    exact hs.inbox_lt x m ((hinbox x) ▸ hm)
  · intro x
    rw [hinbox x]
    exact hs.inbox_sorted x

theorem deliver_room (conns : Nat → Conn) (r : Nat) (m : Msg) (x : Nat) :
    (deliver conns r m x).room = (conns x).room := by
  by_cases h : (conns x).room = some r <;> simp [deliver, h]

theorem deliver_user (conns : Nat → Conn) (r : Nat) (m : Msg) (x : Nat) :
    (deliver conns r m x).user = (conns x).user := by
  by_cases h : (conns x).room = some r <;> simp [deliver, h]

theorem deliver_closed (conns : Nat → Conn) (r : Nat) (m : Msg) (x : Nat) :
    (deliver conns r m x).closed = (conns x).closed := by
  by_cases h : (conns x).room = some r <;> simp [deliver, h]

theorem deliver_inbox (conns : Nat → Conn) (r : Nat) (m : Msg) (x : Nat) :
    ((deliver conns r m x).outbox).filterMap msgOf =
      if (conns x).room = some r then
        ((conns x).outbox).filterMap msgOf ++ [m]
      else ((conns x).outbox).filterMap msgOf := by
  by_cases h : (conns x).room = some r <;>
    simp [deliver, h, List.filterMap_append, filterMap_msgOf_single, msgOf]

/-- Transfer the invariant to a state with the same log and the same
per-connection delivery lists, given the two connection-level clauses
directly. -/
theorem inv_replace_conns {env : Env} {s : CoreState} (hs : Inv env s)
    (conns' : Nat → Conn)
    (houtbox : ∀ x, (conns' x).outbox = (s.conns x).outbox)
    (hcr : ∀ x, (conns' x).closed = true → (conns' x).room = none)
    (hra : ∀ x r, (conns' x).room = some r →
      authorize env (conns' x).user r = none) :
    Inv env ⟨conns', s.log⟩ := by
  have hinb : ∀ x, inboxOf ⟨conns', s.log⟩ x = inboxOf s x := by
    intro x
    simp [inboxOf, houtbox x]
  refine ⟨hcr, hra, hs.log_room, hs.log_lt, hs.log_sorted, ?_, ?_⟩
  · intro x m hm
    exact hs.inbox_lt x m ((hinb x) ▸ hm)
  · intro x
    rw [hinb x]
    exact hs.inbox_sorted x

theorem inboxOf_def (s : CoreState) (c : Nat) :
    inboxOf s c = ((s.conns c).outbox).filterMap msgOf := rfl

theorem inv_step {env : Env} {s : CoreState} (hs : Inv env s) (op : Op) :
    Inv env (step env s op) := by
  cases op with
  | authenticate c cred =>
    cases hcl : (s.conns c).closed with
    | true => simpa [step, hcl] using hs
    | false =>
      cases hu : (s.conns c).user with
      | some u => simpa [step, hcl, hu] using hs
      | none =>
        cases hres : env.resolve cred with
        | none =>
          have hstep : step env s (.authenticate c cred) =
              emit s c (.error .auth .invalid_token) := by
            simp [step, hcl, hu, hres]
          rw [hstep]
          exact inv_emit hs c rfl
        | some u =>
          have hstep : step env s (.authenticate c cred) =
              { s with conns := upd s.conns c ({ s.conns c with user := some u }) } := by
            simp [step, hcl, hu, hres]
          rw [hstep]
          apply inv_replace_conns hs
          · intro x
            by_cases hx : x = c
            · subst hx; simp [upd_same]
            · simp [upd_other _ _ _ hx]
          · intro x hc
            by_cases hx : x = c
            · subst hx
              rw [upd_same] at hc
              simp [hcl] at hc
            · rw [upd_other _ _ _ hx] at hc ⊢
              exact hs.closed_room x hc
          · intro x r hr
            by_cases hx : x = c
            · subst hx
              rw [upd_same] at hr
              simp at hr
              have := hs.room_auth x r hr
              rw [hu] at this
              simp [authorize] at this
            · rw [upd_other _ _ _ hx] at hr ⊢
              exact hs.room_auth x r hr
  | join_room c r =>
    cases hcl : (s.conns c).closed with
    | true => simpa [step, hcl] using hs
    | false =>
      cases hga : authorize env (s.conns c).user r with
      | some reason =>
        have hstep : step env s (.join_room c r) =
            emit s c (.error .join reason) := by
          simp [step, hcl, hga]
        rw [hstep]
        exact inv_emit hs c rfl
      | none =>
        have hstep : step env s (.join_room c r) =
            emit { s with conns := upd s.conns c ({ s.conns c with room := some r }) }
              c (.status (joinedText r)) := by
          simp [step, hcl, hga]
        rw [hstep]
        refine inv_emit ?_ c rfl
        apply inv_replace_conns hs
        · intro x
          by_cases hx : x = c
          · subst hx; simp [upd_same]
          · simp [upd_other _ _ _ hx]
        · intro x hc
          by_cases hx : x = c
          · subst hx
            rw [upd_same] at hc
            simp [hcl] at hc
          · rw [upd_other _ _ _ hx] at hc ⊢
            exact hs.closed_room x hc
        · intro x r' hr'
          by_cases hx : x = c
          · subst hx
            rw [upd_same] at hr' ⊢
            simp at hr' ⊢
            cases hr'
            exact hga
          · rw [upd_other _ _ _ hx] at hr' ⊢
            exact hs.room_auth x r' hr'
  | leave_room c r =>
    cases hcl : (s.conns c).closed with
    | true => simpa [step, hcl] using hs
    | false =>
      by_cases hr : (s.conns c).room = some r
      · have hstep : step env s (.leave_room c r) =
            { s with conns := upd s.conns c ({ s.conns c with room := none }) } := by
          simp [step, hcl, hr]
        rw [hstep]
        apply inv_replace_conns hs
        · intro x
          by_cases hx : x = c
          · subst hx; simp [upd_same]
          · simp [upd_other _ _ _ hx]
        · intro x hc
          by_cases hx : x = c
          · subst hx; rw [upd_same]
          · rw [upd_other _ _ _ hx] at hc ⊢
            exact hs.closed_room x hc
        · intro x r' hr'
          by_cases hx : x = c
          · subst hx
            rw [upd_same] at hr'
            simp at hr'
          · rw [upd_other _ _ _ hx] at hr' ⊢
            exact hs.room_auth x r' hr'
      · simpa [step, hcl, hr] using hs
  | send_message c body =>
    cases hcl : (s.conns c).closed with
    | true => simpa [step, hcl] using hs
    | false =>
      cases hu : (s.conns c).user with
      | none =>
        have hstep : step env s (.send_message c body) =
            emit s c (.error .send .not_in_room) := by
          simp [step, hcl, hu]
        rw [hstep]
        exact inv_emit hs c rfl
      | some u =>
        cases hrm : (s.conns c).room with
        | none =>
          have hstep : step env s (.send_message c body) =
              emit s c (.error .send .not_in_room) := by
            simp [step, hcl, hu, hrm]
          rw [hstep]
          exact inv_emit hs c rfl
        | some r =>
          by_cases hb : isBlank body = true
          · have hstep : step env s (.send_message c body) =
                emit s c (.error .send .empty_body) := by
              simp [step, hcl, hu, hrm, LogState.append, hb]
            rw [hstep]
            exact inv_emit hs c rfl
          · have hstep : step env s (.send_message c body) =
                ⟨deliver s.conns r
                    ⟨r, u.id, u.displayName, strTrim body, s.log.seqOf r⟩,
                  ⟨upd s.log.logs r (s.log.logs r ++
                      [⟨r, u.id, u.displayName, strTrim body, s.log.seqOf r⟩]),
                    upd s.log.seqOf r (s.log.seqOf r + 1)⟩⟩ := by
              simp [step, hcl, hu, hrm, LogState.append, hb]
            rw [hstep]
            set m : Msg := ⟨r, u.id, u.displayName, strTrim body, s.log.seqOf r⟩
              with hm_def
            refine ⟨?_, ?_, ?_, ?_, ?_, ?_, ?_⟩
            · intro x hc
              simp only [deliver_closed] at hc
              simp only [deliver_room]
              exact hs.closed_room x hc
            · intro x r' hr'
              simp only [deliver_room] at hr'
              simp only [deliver_user]
              exact hs.room_auth x r' hr'
            · intro r' m' hm'
              simp only at hm'
              by_cases hr' : r' = r
              · subst hr'
                rw [upd_same] at hm'
                rcases List.mem_append.mp hm' with h | h
                · exact hs.log_room r' m' h
                · rw [List.mem_singleton.mp h]
              · rw [upd_other _ _ _ hr'] at hm'
                exact hs.log_room r' m' hm'
            · intro r' m' hm'
              simp only at hm' ⊢
              by_cases hr' : r' = r
              · subst hr'
                rw [upd_same] at hm' ⊢
                rcases List.mem_append.mp hm' with h | h
                · exact Nat.lt_succ_of_lt (hs.log_lt r' m' h)
                · rw [List.mem_singleton.mp h]
                  exact Nat.lt_succ_self _
              · rw [upd_other _ _ _ hr'] at hm'
                rw [upd_other _ _ _ hr']
                exact hs.log_lt r' m' hm'
            · intro r'
              simp only
              by_cases hr' : r' = r
              · subst hr'
                rw [upd_same]
                rw [List.pairwise_append]
                refine ⟨hs.log_sorted r', by simp, ?_⟩
                intro a ha b hb
                rw [List.mem_singleton.mp hb]
                exact hs.log_lt r' a ha
              · rw [upd_other _ _ _ hr']
                exact hs.log_sorted r'
            · intro x m' hm'
              rw [inboxOf_def] at hm'
              simp only at hm' ⊢
              rw [deliver_inbox] at hm'
              by_cases hx : (s.conns x).room = some r
              · rw [if_pos hx] at hm'
                rcases List.mem_append.mp hm' with h | h
                · have hlt := hs.inbox_lt x m' h
                  by_cases hrr : m'.roomId = r
                  · rw [hrr] at hlt ⊢
                    rw [upd_same]
                    exact Nat.lt_succ_of_lt hlt
                  · rw [upd_other _ _ _ hrr]
                    exact hlt
                · rw [List.mem_singleton.mp h]
                  simp only [hm_def]
                  rw [upd_same]
                  exact Nat.lt_succ_self _
              · rw [if_neg hx] at hm'
                have hlt := hs.inbox_lt x m' hm'
                by_cases hrr : m'.roomId = r
                · rw [hrr] at hlt ⊢
                  rw [upd_same]
                  exact Nat.lt_succ_of_lt hlt
                · rw [upd_other _ _ _ hrr]
                  exact hlt
            · intro x
              rw [inboxOf_def]
              simp only
              rw [deliver_inbox]
              by_cases hx : (s.conns x).room = some r
              · rw [if_pos hx]
                rw [List.pairwise_append]
                refine ⟨hs.inbox_sorted x, by simp, ?_⟩
                intro a ha b hb hroom
                rw [List.mem_singleton.mp hb] at hroom ⊢
                have hlt := hs.inbox_lt x a ha
                simp only [hm_def] at hroom ⊢
                rw [hroom] at hlt
                exact hlt
              · rw [if_neg hx]
                exact hs.inbox_sorted x
  | disconnect c =>
    cases hcl : (s.conns c).closed with
    | true => simpa [step, hcl] using hs
    | false =>
      have hstep : step env s (.disconnect c) =
          { s with conns := upd s.conns c ({ s.conns c with room := none, closed := true }) } := by
        simp [step, hcl]
      rw [hstep]
      apply inv_replace_conns hs
      · intro x
        by_cases hx : x = c
        · subst hx; simp [upd_same]
        · simp [upd_other _ _ _ hx]
      · intro x hc
        by_cases hx : x = c
        · subst hx; rw [upd_same]
        · rw [upd_other _ _ _ hx] at hc ⊢
          exact hs.closed_room x hc
      · intro x r' hr'
        by_cases hx : x = c
        · subst hx
          rw [upd_same] at hr'
          simp at hr'
        · rw [upd_other _ _ _ hx] at hr' ⊢
          exact hs.room_auth x r' hr'

theorem inv_run {env : Env} {s : CoreState} (hs : Inv env s) (ops : List Op) :
    Inv env (run env s ops) := by
  induction ops generalizing s with
  | nil => exact hs
  | cons op ops ih => exact ih (inv_step hs op)

/-- A closed connection that occupies no room is untouched by every
further operation: no later broadcast delivers to it and no later
operation revives it (spec §4.1: unregister is final; operations on an
unknown connection are no-ops). -/
theorem step_frozen {env : Env} {s : CoreState} {c : Nat}
    (hcl : (s.conns c).closed = true) (hr : (s.conns c).room = none)
    (op : Op) : (step env s op).conns c = s.conns c := by
  cases op with
  | authenticate d cred =>
    by_cases hx : d = c
    · subst hx; simp [step, hcl]
    · have hx' : c ≠ d := fun h => hx h.symm
      simp only [step]
      split
      · rfl
      · split
        · rfl
        · split
          · simp [upd_other _ _ _ hx']
          · simp [emit, upd_other _ _ _ hx']
  | join_room d r =>
    by_cases hx : d = c
    · subst hx; simp [step, hcl]
    · have hx' : c ≠ d := fun h => hx h.symm
      simp only [step]
      split
      · rfl
      · split
        · simp [emit, upd_other _ _ _ hx']
        · simp [emit, upd_other _ _ _ hx']
  | leave_room d r =>
    by_cases hx : d = c
    · subst hx; simp [step, hcl]
    · have hx' : c ≠ d := fun h => hx h.symm
      simp only [step]
      split
      · rfl
      · split
        · simp [upd_other _ _ _ hx']
        · rfl
  | send_message d body =>
    by_cases hx : d = c
    · subst hx; simp [step, hcl]
    · have hx' : c ≠ d := fun h => hx h.symm
      simp only [step]
      split
      · rfl
      · split
        · split
          · simp [emit, upd_other _ _ _ hx']
          · simp only
            simp [deliver, hr]
        · simp [emit, upd_other _ _ _ hx']
  | disconnect d =>
    by_cases hx : d = c
    · subst hx; simp [step, hcl]
    · have hx' : c ≠ d := fun h => hx h.symm
      simp only [step]
      split
      · rfl
      · simp [upd_other _ _ _ hx']

/-- Iterated version of `step_frozen`: once a connection is closed and
out of every room, the whole remainder of the run leaves it exactly as it
is. -/
theorem run_frozen {env : Env} {s : CoreState} {c : Nat}
    (hcl : (s.conns c).closed = true) (hr : (s.conns c).room = none)
    (ops : List Op) : (run env s ops).conns c = s.conns c := by
  induction ops generalizing s with
  | nil => rfl
  | cons op ops ih =>
    have hstep : (step env s op).conns c = s.conns c := step_frozen hcl hr op
    have h1 : ((step env s op).conns c).closed = true := by rw [hstep]; exact hcl
    have h2 : ((step env s op).conns c).room = none := by rw [hstep]; exact hr
    calc (run env (step env s op) ops).conns c
        = (step env s op).conns c := ih h1 h2
      _ = s.conns c := hstep

/-- A connection's authenticated identity is immutable once set (spec §3:
"immutable for the life of a connection"). -/
theorem step_user_mono {env : Env} {s : CoreState} {c : Nat} {u : User}
    (hu : (s.conns c).user = some u) (op : Op) :
    ((step env s op).conns c).user = some u := by
  cases op with
  | authenticate d cred =>
    by_cases hx : d = c
    · subst hx
      cases hcl : (s.conns d).closed with
      | true => simp [step, hcl, hu]
      | false => simp [step, hcl, hu]
    · have hx' : c ≠ d := fun h => hx h.symm
      simp only [step]
      split
      · exact hu
      · split
        · exact hu
        · split
          · simp [upd_other _ _ _ hx', hu]
          · simp [emit, upd_other _ _ _ hx', hu]
  | join_room d r =>
    by_cases hx : d = c
    · subst hx
      simp only [step]
      split
      · exact hu
      · split
        · simp [emit, upd_same, hu]
        · simp [emit, upd, hu]
    · have hx' : c ≠ d := fun h => hx h.symm
      simp only [step]
      split
      · exact hu
      · split
        · simp [emit, upd_other _ _ _ hx', hu]
        · simp [emit, upd_other _ _ _ hx', hu]
  | leave_room d r =>
    by_cases hx : d = c
    · subst hx
      simp only [step]
      split
      · exact hu
      · split
        · simp [upd_same, hu]
        · exact hu
    · have hx' : c ≠ d := fun h => hx h.symm
      simp only [step]
      split
      · exact hu
      · split
        · simp [upd_other _ _ _ hx', hu]
        · exact hu
  | send_message d body =>
    simp only [step]
    split
    · exact hu
    · split
      · split
        · by_cases hx : d = c
          · subst hx; simp [emit, upd_same, hu]
          · have hx' : c ≠ d := fun h => hx h.symm
            simp [emit, upd_other _ _ _ hx', hu]
        · simp only
          rw [deliver_user]
          exact hu
      · by_cases hx : d = c
        · subst hx; simp [emit, upd_same, hu]
        · have hx' : c ≠ d := fun h => hx h.symm
          simp [emit, upd_other _ _ _ hx', hu]
  | disconnect d =>
    by_cases hx : d = c
    · subst hx
      simp only [step]
      split
      · exact hu
      · simp [upd_same, hu]
    · have hx' : c ≠ d := fun h => hx h.symm
      simp only [step]
      split
      · exact hu
      · simp [upd_other _ _ _ hx', hu]

/-- Iterated version of `step_user_mono`. -/
theorem run_user_mono {env : Env} {s : CoreState} {c : Nat} {u : User}
    (hu : (s.conns c).user = some u) (ops : List Op) :
    ((run env s ops).conns c).user = some u := by
  induction ops generalizing s with
  | nil => exact hu
  | cons op ops ih => exact ih (step_user_mono hu op)

/-- Claim C1: for every room and every pair of messages m1, m2 appended
to that room with m1 appended before m2 (same room, lower sequence
number), every connection that receives both messages receives m1
strictly before m2 — the delivered positions respect the per-room
sequence order, so the observed per-room order is the same for every
connection. -/
theorem c1_per_room_delivery_order (env : Env) (ops : List Op) (c : Nat)
    (m1 m2 : Msg)
    (h1 : m1 ∈ inboxOf (run env initCore ops) c)
    (h2 : m2 ∈ inboxOf (run env initCore ops) c)
    (hroom : m1.roomId = m2.roomId)
    (hseq : m1.sequence < m2.sequence) :
    ∃ i j : Fin (inboxOf (run env initCore ops) c).length,
      (i : Nat) < (j : Nat) ∧
      (inboxOf (run env initCore ops) c).get i = m1 ∧
      (inboxOf (run env initCore ops) c).get j = m2 := by
  have hinv := inv_run (inv_init env) ops
  have hpw := hinv.inbox_sorted c
  rw [List.pairwise_iff_get] at hpw
  obtain ⟨i, hi⟩ := List.mem_iff_get.mp h1
  obtain ⟨j, hj⟩ := List.mem_iff_get.mp h2
  rcases Nat.lt_trichotomy (i : Nat) (j : Nat) with hij | hij | hij
  · exact ⟨i, j, hij, hi, hj⟩
  · exfalso
    have heq : m1 = m2 := by
      rw [← hi, ← hj]
      congr 1
      exact Fin.ext hij
    rw [heq] at hseq
    exact lt_irrefl _ hseq
  · exfalso
    have hlt := hpw j i hij
    rw [hi, hj] at hlt
    have := hlt hroom.symm
    omega

/-- Witness for C1: in the concrete run `wopsA`, connection 0 receives
both messages of room 5 and receives the first strictly before the
second. -/
theorem c1_witness :
    m1A ∈ inboxOf (run envA initCore wopsA) 0 ∧
    m2A ∈ inboxOf (run envA initCore wopsA) 0 ∧
    m1A.roomId = m2A.roomId ∧ m1A.sequence < m2A.sequence ∧
    ∃ i j : Fin (inboxOf (run envA initCore wopsA) 0).length,
      (i : Nat) < (j : Nat) ∧
      (inboxOf (run envA initCore wopsA) 0).get i = m1A ∧
      (inboxOf (run envA initCore wopsA) 0).get j = m2A :=
  ⟨by decide, by decide, by decide, by decide,
    c1_per_room_delivery_order envA wopsA 0 m1A m2A
      (by decide) (by decide) (by decide) (by decide)⟩

/-- Claim C2: after `unregister(c)` (the disconnect-triggered teardown)
completes, `c` is a member of no room; a second `unregister` is a no-op
(it runs effectively once per connection lifetime); and no operation
issued after the unregister — in particular no `publish` — changes `c`'s
state or delivers anything to it. -/
theorem c2_unregister_final (env : Env) (ops : List Op) (c : Nat) :
    (∀ r, memberOf (step env (run env initCore ops) (.disconnect c)) r c = false) ∧
    step env (step env (run env initCore ops) (.disconnect c)) (.disconnect c)
      = step env (run env initCore ops) (.disconnect c) ∧
    ∀ ops', (run env (step env (run env initCore ops) (.disconnect c)) ops').conns c
      = (step env (run env initCore ops) (.disconnect c)).conns c := by
  have hinv := inv_run (inv_init env) ops
  have hkey : ((step env (run env initCore ops) (.disconnect c)).conns c).closed = true ∧
      ((step env (run env initCore ops) (.disconnect c)).conns c).room = none := by
    cases hcl : ((run env initCore ops).conns c).closed with
    | true =>
      have hstep : step env (run env initCore ops) (.disconnect c)
          = run env initCore ops := by
        simp [step, hcl]
      rw [hstep]
      exact ⟨hcl, hinv.closed_room c hcl⟩
    | false =>
      have hstep : step env (run env initCore ops) (.disconnect c)
          = { run env initCore ops with conns := upd (run env initCore ops).conns c ({ (run env initCore ops).conns c with room := none, closed := true }) } := by
        simp [step, hcl]
      rw [hstep]
      simp [upd_same]
  generalize hS : step env (run env initCore ops) (.disconnect c) = S at hkey ⊢
  refine ⟨?_, ?_, ?_⟩
  · intro r
    simp [memberOf, hkey.2]
  · simp [step, hkey.1]
  · intro ops'
    exact run_frozen hkey.1 hkey.2 ops'

/-- Claim C3: a join request on a connection whose authentication has
not completed is denied with reason `unauthenticated` (an error event
scoped to the join), and only the join is refused: the connection is not
closed, its room and identity are unchanged (so a retry can still
succeed), and every other connection and the message log are
untouched. -/
theorem c3_unauthenticated_join_denied (env : Env) (ops : List Op) (c r : Nat)
    (hu : ((run env initCore ops).conns c).user = none)
    (hcl : ((run env initCore ops).conns c).closed = false) :
    ((step env (run env initCore ops) (.join_room c r)).conns c).outbox
      = ((run env initCore ops).conns c).outbox ++ [.error .join .unauthenticated] ∧
    ((step env (run env initCore ops) (.join_room c r)).conns c).room
      = ((run env initCore ops).conns c).room ∧
    ((step env (run env initCore ops) (.join_room c r)).conns c).closed = false ∧
    ((step env (run env initCore ops) (.join_room c r)).conns c).user = none ∧
    (∀ x, x ≠ c → (step env (run env initCore ops) (.join_room c r)).conns x
      = (run env initCore ops).conns x) ∧
    (step env (run env initCore ops) (.join_room c r)).log
      = (run env initCore ops).log := by
  have hga : authorize env ((run env initCore ops).conns c).user r
      = some .unauthenticated := by
    rw [hu]
    rfl
  have hstep : step env (run env initCore ops) (.join_room c r)
      = emit (run env initCore ops) c (.error .join .unauthenticated) := by
    simp [step, hcl, hga]
  rw [hstep]
  refine ⟨?_, ?_, ?_, ?_, ?_, ?_⟩
  · simp [emit_conns_self]
  · simp [emit_conns_self]
  · simp [emit_conns_self, hcl]
  · simp [emit_conns_self, hu]
  · intro x hx
    exact emit_conns_other _ _ _ hx
  · rfl

/-- Witness for C3: a fresh connection (never authenticated) joining
room 7 is denied with `unauthenticated` and stays open. -/
theorem c3_witness :
    ((run envA initCore []).conns 0).user = none ∧
    ((run envA initCore []).conns 0).closed = false ∧
    ((step envA (run envA initCore []) (.join_room 0 7)).conns 0).outbox
      = ((run envA initCore []).conns 0).outbox ++ [.error .join .unauthenticated] ∧
    ((step envA (run envA initCore []) (.join_room 0 7)).conns 0).closed = false :=
  ⟨by decide, by decide,
    (c3_unauthenticated_join_denied envA [] 0 7 (by decide) (by decide)).1,
    (c3_unauthenticated_join_denied envA [] 0 7 (by decide) (by decide)).2.2.1⟩

/-- Claim C5: every join or send request on a live connection produces
exactly one feedback event for that connection: a denied join emits a
scoped `error(join, reason)` and an accepted join a `status`; a failed
send emits a scoped `error(send, reason)` and a successful send delivers
the `message` itself back to the sender — no join or send request is
dropped without feedback. -/
theorem c5_join_send_feedback (env : Env) (ops : List Op) (c r : Nat)
    (body : String)
    (hcl : ((run env initCore ops).conns c).closed = false) :
    ((∃ reason, authorize env ((run env initCore ops).conns c).user r = some reason ∧
        ((step env (run env initCore ops) (.join_room c r)).conns c).outbox
          = ((run env initCore ops).conns c).outbox ++ [.error .join reason]) ∨
      (authorize env ((run env initCore ops).conns c).user r = none ∧
        ((step env (run env initCore ops) (.join_room c r)).conns c).outbox
          = ((run env initCore ops).conns c).outbox ++ [.status (joinedText r)])) ∧
    ((∃ reason, ((step env (run env initCore ops) (.send_message c body)).conns c).outbox
          = ((run env initCore ops).conns c).outbox ++ [.error .send reason]) ∨
      (∃ m, ((step env (run env initCore ops) (.send_message c body)).conns c).outbox
          = ((run env initCore ops).conns c).outbox ++ [.message m])) := by
  constructor
  · cases hga : authorize env ((run env initCore ops).conns c).user r with
    | some reason =>
      left
      refine ⟨reason, rfl, ?_⟩
      have hstep : step env (run env initCore ops) (.join_room c r)
          = emit (run env initCore ops) c (.error .join reason) := by
        simp [step, hcl, hga]
      rw [hstep]
      simp [emit_conns_self]
    | none =>
      right
      refine ⟨rfl, ?_⟩
      have hstep : step env (run env initCore ops) (.join_room c r)
          = emit { run env initCore ops with conns := upd (run env initCore ops).conns c ({ (run env initCore ops).conns c with room := some r }) } c (.status (joinedText r)) := by
        simp [step, hcl, hga]
      rw [hstep]
      simp [emit_conns_self, upd_same]
  · cases hu : ((run env initCore ops).conns c).user with
    | none =>
      left
      refine ⟨.not_in_room, ?_⟩
      have hstep : step env (run env initCore ops) (.send_message c body)
          = emit (run env initCore ops) c (.error .send .not_in_room) := by
        simp [step, hcl, hu]
      rw [hstep]
      simp [emit_conns_self]
    | some u =>
      cases hrm : ((run env initCore ops).conns c).room with
      | none =>
        left
        refine ⟨.not_in_room, ?_⟩
        have hstep : step env (run env initCore ops) (.send_message c body)
            = emit (run env initCore ops) c (.error .send .not_in_room) := by
          simp [step, hcl, hu, hrm]
        rw [hstep]
        simp [emit_conns_self]
      | some r' =>
        by_cases hb : isBlank body = true
        · left
          refine ⟨.empty_body, ?_⟩
          have hstep : step env (run env initCore ops) (.send_message c body)
              = emit (run env initCore ops) c (.error .send .empty_body) := by
            simp [step, hcl, hu, hrm, LogState.append, hb]
          rw [hstep]
          simp [emit_conns_self]
        · right
          refine ⟨⟨r', u.id, u.displayName, strTrim body, (run env initCore ops).log.seqOf r'⟩, ?_⟩
          have hstep : step env (run env initCore ops) (.send_message c body)
              = ⟨deliver (run env initCore ops).conns r' ⟨r', u.id, u.displayName, strTrim body, (run env initCore ops).log.seqOf r'⟩, ⟨upd (run env initCore ops).log.logs r' ((run env initCore ops).log.logs r' ++ [⟨r', u.id, u.displayName, strTrim body, (run env initCore ops).log.seqOf r'⟩]), upd (run env initCore ops).log.seqOf r' ((run env initCore ops).log.seqOf r' + 1)⟩⟩ := by
            simp [step, hcl, hu, hrm, LogState.append, hb]
          rw [hstep]
          simp only [deliver, hrm]
          simp

/-- Witness for C5: on the fully-joined concrete run, one more join and
one more send both produce a feedback event for connection 0. -/
theorem c5_witness :
    ((run envA initCore wopsA).conns 0).closed = false ∧
    (((∃ reason, authorize envA ((run envA initCore wopsA).conns 0).user 5 = some reason ∧
        ((step envA (run envA initCore wopsA) (.join_room 0 5)).conns 0).outbox
          = ((run envA initCore wopsA).conns 0).outbox ++ [.error .join reason]) ∨
      (authorize envA ((run envA initCore wopsA).conns 0).user 5 = none ∧
        ((step envA (run envA initCore wopsA) (.join_room 0 5)).conns 0).outbox
          = ((run envA initCore wopsA).conns 0).outbox ++ [.status (joinedText 5)])) ∧
    ((∃ reason, ((step envA (run envA initCore wopsA) (.send_message 0 "hey")).conns 0).outbox
          = ((run envA initCore wopsA).conns 0).outbox ++ [.error .send reason]) ∨
      (∃ m, ((step envA (run envA initCore wopsA) (.send_message 0 "hey")).conns 0).outbox
          = ((run envA initCore wopsA).conns 0).outbox ++ [.message m]))) :=
  ⟨by decide, c5_join_send_feedback envA wopsA 0 5 "hey" (by decide)⟩

/-- Claim C8: if the Membership Gate denies connection `c`'s user access
to room `R`, then `c` never appears in `membersOf(R)` in any reachable
state; more generally every room member was approved by the gate at join
time; and membership is removed immediately on explicit leave or on
disconnect. -/
theorem c8_membership_gate (env : Env) (ops ops' : List Op) (c : Nat)
    (u : User) (R : Nat)
    (h1 : ((run env initCore ops).conns c).user = some u)
    (h2 : authorize env (some u) R ≠ none) :
    memberOf (run env (run env initCore ops) ops') R c = false ∧
    (∀ c' r', memberOf (run env initCore ops) r' c' = true →
      authorize env ((run env initCore ops).conns c').user r' = none) ∧
    ((step env (run env initCore ops) (.leave_room c R)).conns c).room ≠ some R ∧
    ((step env (run env initCore ops) (.disconnect c)).conns c).room = none := by
  have hinv := inv_run (inv_init env) ops
  refine ⟨?_, ?_, ?_, ?_⟩
  · have hinv2 := inv_run hinv ops'
    rw [memberOf]
    simp only [beq_eq_false_iff_ne, ne_eq]
    intro hroom
    have hauth := hinv2.room_auth c R hroom
    rw [run_user_mono h1 ops'] at hauth
    exact h2 hauth
  · intro c' r' hm
    rw [memberOf, beq_iff_eq] at hm
    exact hinv.room_auth c' r' hm
  · cases hcl : ((run env initCore ops).conns c).closed with
    | true =>
      have hstep : step env (run env initCore ops) (.leave_room c R)
          = run env initCore ops := by
        simp [step, hcl]
      rw [hstep, hinv.closed_room c hcl]
      simp
    | false =>
      by_cases hr : ((run env initCore ops).conns c).room = some R
      · have hstep : step env (run env initCore ops) (.leave_room c R)
            = { run env initCore ops with conns := upd (run env initCore ops).conns c ({ (run env initCore ops).conns c with room := none }) } := by
          simp [step, hcl, hr]
        rw [hstep]
        simp [upd_same]
      · have hstep : step env (run env initCore ops) (.leave_room c R)
            = run env initCore ops := by
          simp [step, hcl, hr]
        rw [hstep]
        exact hr
  · cases hcl : ((run env initCore ops).conns c).closed with
    | true =>
      have hstep : step env (run env initCore ops) (.disconnect c)
          = run env initCore ops := by
        simp [step, hcl]
      rw [hstep]
      exact hinv.closed_room c hcl
    | false =>
      have hstep : step env (run env initCore ops) (.disconnect c)
          = { run env initCore ops with conns := upd (run env initCore ops).conns c ({ (run env initCore ops).conns c with room := none, closed := true }) } := by
        simp [step, hcl]
      rw [hstep]
      simp [upd_same]

/-- Witness for C8: under a membership authority that denies everyone,
an authenticated connection that attempts to join room 5 still never
appears among room 5's members. -/
theorem c8_witness :
    ((run envB initCore [.authenticate 0 "t"]).conns 0).user = some ⟨1, "ann"⟩ ∧
    authorize envB (some ⟨1, "ann"⟩) 5 ≠ none ∧
    memberOf (run envB (run envB initCore [.authenticate 0 "t"]) [.join_room 0 5]) 5 0
      = false :=
  ⟨by decide, by decide,
    (c8_membership_gate envB [.authenticate 0 "t"] [.join_room 0 5] 0 ⟨1, "ann"⟩ 5
      (by decide) (by decide)).1⟩

/-- One append preserves the Message Log invariant: every stored
message's sequence number is below the room counter and each room's log
is sorted by strictly increasing sequence number. -/
theorem appendOrKeep_inv {st : LogState}
    (h : ∀ r, (∀ m ∈ st.logs r, m.sequence < st.seqOf r) ∧
      (st.logs r).Pairwise (fun a b => a.sequence < b.sequence))
    (ri ui : Nat) (dn body : String) :
    ∀ r, (∀ m ∈ (st.appendOrKeep ri ui dn body).logs r,
        m.sequence < (st.appendOrKeep ri ui dn body).seqOf r) ∧
      ((st.appendOrKeep ri ui dn body).logs r).Pairwise
        (fun a b => a.sequence < b.sequence) := by
  by_cases hb : isBlank body = true
  · simpa [LogState.appendOrKeep, LogState.append, hb] using h
  · intro r
    simp only [LogState.appendOrKeep, LogState.append, hb, if_false,
      Bool.false_eq_true]
    by_cases hr : r = ri
    · subst hr
      constructor
      · intro m hm
        rw [upd_same] at hm ⊢
        rcases List.mem_append.mp hm with hm | hm
        · exact Nat.lt_succ_of_lt ((h r).1 m hm)
        · rw [List.mem_singleton.mp hm]
          exact Nat.lt_succ_self _
      · rw [upd_same, List.pairwise_append]
        refine ⟨(h r).2, by simp, ?_⟩
        intro a ha b hbm
        rw [List.mem_singleton.mp hbm]
        exact (h r).1 a ha
    · rw [upd_other _ _ _ hr, upd_other _ _ _ hr]
      exact h r

/-- The Message Log invariant holds for every log built by appends. -/
theorem buildLog_inv (entries : List (Nat × Nat × String × String)) :
    ∀ r, (∀ m ∈ (buildLog entries).logs r,
        m.sequence < (buildLog entries).seqOf r) ∧
      ((buildLog entries).logs r).Pairwise
        (fun a b => a.sequence < b.sequence) := by
  have gen : ∀ (es : List (Nat × Nat × String × String)) (st : LogState),
      (∀ r, (∀ m ∈ st.logs r, m.sequence < st.seqOf r) ∧
        (st.logs r).Pairwise (fun a b => a.sequence < b.sequence)) →
      ∀ r, (∀ m ∈ (buildLogFrom st es).logs r,
          m.sequence < (buildLogFrom st es).seqOf r) ∧
        ((buildLogFrom st es).logs r).Pairwise
          (fun a b => a.sequence < b.sequence) := by
    intro es
    induction es with
    | nil => intro st h; exact h
    | cons e es ih =>
      intro st h
      exact ih _ (appendOrKeep_inv h e.1 e.2.1 e.2.2.1 e.2.2.2)
  exact gen entries initLog (by simp [initLog])

/-- Claim C4: `append(roomId, userId, displayName, body)` fails with
`empty_body` whenever the body is blank after trimming, and the failure
has no side effects (the caller's log state is kept unchanged, so
nothing is stored and nothing can be broadcast); for every non-blank
body it returns a Message carrying the room, sender, trimmed body and
the room's next sequence number. -/
theorem c4_append_empty_body (st : LogState) (r uid : Nat) (dn body : String) :
    (isBlank body = true →
      st.append r uid dn body = .error .empty_body ∧
      st.appendOrKeep r uid dn body = st) ∧
    (isBlank body = false →
      ∃ st' m, st.append r uid dn body = .ok (st', m) ∧
        m.roomId = r ∧ m.userId = uid ∧ m.displayName = dn ∧
        m.body = strTrim body ∧ m.sequence = st.seqOf r) := by
  constructor
  · intro hb
    constructor
    · simp [LogState.append, hb]
    · simp [LogState.appendOrKeep, LogState.append, hb]
  · intro hb
    refine ⟨⟨upd st.logs r (st.logs r ++ [⟨r, uid, dn, strTrim body, st.seqOf r⟩]),
        upd st.seqOf r (st.seqOf r + 1)⟩,
      ⟨r, uid, dn, strTrim body, st.seqOf r⟩, ?_, rfl, rfl, rfl, rfl, rfl⟩
    simp [LogState.append, hb]

/-- Witness for C4: a whitespace-only body is rejected with `empty_body`
and leaves the log unchanged; the body `"GOAL!!"` is accepted. -/
theorem c4_witness :
    (isBlank "   " = true ∧
      (initLog.append 1 2 "ann" "   " = .error .empty_body ∧
        initLog.appendOrKeep 1 2 "ann" "   " = initLog)) ∧
    (isBlank "GOAL!!" = false ∧
      ∃ st' m, initLog.append 1 2 "ann" "GOAL!!" = .ok (st', m) ∧
        m.roomId = 1 ∧ m.userId = 2 ∧ m.displayName = "ann" ∧
        m.body = strTrim "GOAL!!" ∧ m.sequence = initLog.seqOf 1) :=
  ⟨⟨by decide, (c4_append_empty_body initLog 1 2 "ann" "   ").1 (by decide)⟩,
    ⟨by decide, (c4_append_empty_body initLog 1 2 "ann" "GOAL!!").2 (by decide)⟩⟩

/-- Claim C6: `history(roomId, limit, offset)` paginates the room's
messages in reverse-chronological (most-recent-first) order; an offset
at or beyond the number of stored messages yields the empty sequence
rather than an error; and on the concrete 3-message room, `limit=2,
offset=0` gives the two most recent messages in order, `offset=2` the
one remaining, `offset=5` the empty sequence. -/
theorem c6_history_pagination (st : LogState) (r limit offset : Nat) :
    ((st.logs r).length ≤ offset → st.history r limit offset = []) ∧
    ((buildLog entriesA).logs 1).length = 3 ∧
    (buildLog entriesA).history 1 2 0
      = [⟨1, 12, "c", "m3", 2⟩, ⟨1, 11, "b", "m2", 1⟩] ∧
    (buildLog entriesA).history 1 2 2 = [⟨1, 10, "a", "m1", 0⟩] ∧
    (buildLog entriesA).history 1 2 5 = [] := by
  refine ⟨?_, by decide, by decide, by decide, by decide⟩
  intro h
  rw [LogState.history]
  have hlen : (st.logs r).reverse.length ≤ offset := by
    rw [List.length_reverse]
    exact h
  rw [List.drop_eq_nil_of_le hlen]
  simp

/-- Witness for C6: the empty log paginated at offset 0 returns the
empty sequence. -/
theorem c6_witness :
    (initLog.logs 1).length ≤ 0 ∧ initLog.history 1 5 0 = [] :=
  ⟨by decide, (c6_history_pagination initLog 1 5 0).1 (by decide)⟩

/-- Claim C7: for every log built by a sequence of appends, `history`
returns the page ordered by sequence number (strictly decreasing, i.e.
most-recent-first), and a `history` read is pure and idempotent: it
leaves the log state unchanged, and a second read with the same
arguments and no intervening append returns the identical result. -/
theorem c7_history_order_idempotent
    (entries : List (Nat × Nat × String × String)) (r limit offset : Nat) :
    ((buildLog entries).history r limit offset).Pairwise
      (fun a b => b.sequence < a.sequence) ∧
    (buildLog entries).historyOp r limit offset
      = (buildLog entries, (buildLog entries).history r limit offset) ∧
    ((buildLog entries).historyOp r limit offset).1.historyOp r limit offset
      = (buildLog entries).historyOp r limit offset := by
  refine ⟨?_, rfl, rfl⟩
  have hsorted := (buildLog_inv entries r).2
  have hrev : ((buildLog entries).logs r).reverse.Pairwise
      (fun a b => b.sequence < a.sequence) := by
    rw [List.pairwise_reverse]
    exact hsorted
  have hsub : List.Sublist
      ((((buildLog entries).logs r).reverse.drop offset).take limit)
      (((buildLog entries).logs r).reverse) :=
    (List.take_sublist _ _).trans (List.drop_sublist _ _)
  exact hrev.sublist hsub

/-- Claim C9: the chat client renders messages exactly in the order they
arrive: every `receive_message` event is appended to the end of the
list, the rendered rows follow array order, and no re-sorting by
sequence number or timestamp happens — the displayed order equals
network arrival order. -/
theorem c9_render_arrival_order (arrivals : List ClientMsg) :
    clientMessages arrivals = arrivals ∧
    renderRows (clientMessages arrivals)
      = arrivals.map (fun m => (m.username, m.content)) := by
  have gen : ∀ (l acc : List ClientMsg), l.foldl receive_message acc = acc ++ l := by
    intro l
    induction l with
    | nil => intro acc; simp
    | cons a l ih =>
      intro acc
      rw [List.foldl_cons, ih]
      simp [receive_message]
  have h : clientMessages arrivals = arrivals := by
    rw [clientMessages, gen]
    rfl
  exact ⟨h, by rw [h]; rfl⟩

/-- Claim C10: the client's REST layer reacts to a 401 response by
removing `access_token`, `refresh_token` and `user` from storage and
redirecting to `/login`; a response with any other status leaves the
stored credentials unchanged and triggers no redirect. -/
theorem c10_unauthorized_interceptor (st : Storage) :
    responseErrorInterceptor (some 401) st = (⟨none, none, none⟩, some "/login") ∧
    ∀ n, n ≠ 401 → responseErrorInterceptor (some n) st = (st, none) := by
  constructor
  · rfl
  · intro n hn
    simp [responseErrorInterceptor, hn]

/-- Witness for C10: a 403 response leaves the stored credentials
untouched and does not redirect. -/
theorem c10_witness :
    (403 : Nat) ≠ 401 ∧
    responseErrorInterceptor (some 403) ⟨some "a", some "b", some "u"⟩
      = (⟨some "a", some "b", some "u"⟩, none) :=
  ⟨by decide,
    (c10_unauthorized_interceptor ⟨some "a", some "b", some "u"⟩).2 403 (by decide)⟩

end FootballChat
